import Mathlib

/-!
Verification of the Zenith daily scheduler core: the duration-mode free-slot
allocator, the overlap validator used for manual edits of a previewed
schedule, the current-task classification, the completion toggle and
history recording, and the notification timer registry.

All definitions are shallow embeddings of the TypeScript source
(components/services/App).  Timestamps are milliseconds since epoch,
modelled as `Int` (JS numbers are used only integrally here).
-/

namespace Zenith

/-- Task status, from `types.ts`: 'pending' | 'in-progress' | 'completed'. -/
inductive Status where
  | pending
  | inProgress
  | completed
deriving Repr, DecidableEq

/-- Task priority, from `types.ts`: 'low' | 'medium' | 'high'. -/
inductive Priority where
  | low
  | medium
  | high
deriving Repr, DecidableEq

/-- The `Task` interface from `types.ts`. -/
structure Task where
  id : String
  title : String
  description : Option String
  startTime : Int
  endTime : Int
  status : Status
  priority : Priority
  categoryId : String
  order : Nat
  createdAt : Int
deriving Repr, DecidableEq

/-- The `Category` interface from `types.ts`. -/
structure Category where
  id : String
  name : String
  color : String
deriving Repr, DecidableEq

/-- The `CompletedTask` interface from `types.ts`: a task plus `completedAt`. -/
structure CompletedTask extends Task where
  completedAt : Int
deriving Repr, DecidableEq

/-- A free slot of the duration-mode allocator
(`freeSlots: { start: dayjs.Dayjs, end: dayjs.Dayjs }[]` in `SetupModal`).
`end` is a reserved word in Lean, hence the guillemets. -/
structure FreeSlot where
  start : Int
  «end» : Int
deriving Repr, DecidableEq

/-- `allocateTime` from `SetupModal.scheduleDurationTasks`: scan the free
slots in list order, place the task at the start of the first slot whose
duration is at least `durationMs`, shrinking or removing that slot.  The JS
function mutates `freeSlots` and pushes onto `scheduledTasks` and returns a
boolean; here it returns the placed task and the updated slot list, or
`none` when no slot fits. -/
def allocateTime (durationMs : Int) (taskDetails : Task) :
    List FreeSlot → Option (Task × List FreeSlot)
  | [] => none
  | slot :: rest =>
    let slotDuration := slot.«end» - slot.start
    if slotDuration ≥ durationMs then
      let taskStartTime := slot.start
      let taskEndTime := taskStartTime + durationMs
      let placed : Task := { taskDetails with startTime := taskStartTime, endTime := taskEndTime }
      let remainingSlotStart := taskEndTime
      if remainingSlotStart < slot.«end» then
        some (placed, { start := remainingSlotStart, «end» := slot.«end» } :: rest)
      else
        some (placed, rest)
    else
      match allocateTime durationMs taskDetails rest with
      | none => none
      | some (placed, rest') => some (placed, slot :: rest')

/-- One step of the `forEach` loops in `scheduleDurationTasks`: on success
the placed task is pushed onto the scheduled list and the slots are
updated; on failure the state is unchanged (the item is silently dropped). -/
def allocStep (st : List Task × List FreeSlot) (durationMs : Int) (taskDetails : Task) :
    List Task × List FreeSlot :=
  match allocateTime durationMs taskDetails st.2 with
  | none => st
  | some (placed, slots) => (st.1 ++ [placed], slots)

/-- The `fixedTasks` array literal in `scheduleDurationTasks`.  The `id`
field stands for the `crypto.randomUUID()` call (identity-generator
collaborator); it is passed in so the function stays deterministic. -/
structure FixedTaskSpec where
  id : String
  title : String
  durationHours : Int
  category : String
  priority : Priority
deriving Repr, DecidableEq

/-- `categories.find(c => c.name.toLowerCase() === ft.category)?.id || categories[0].id`.
On an empty category list the JS expression throws; the model returns `""`
there (no claim depends on that case). -/
def findCategoryId (categories : List Category) (name : String) : String :=
  match categories.find? (fun c => c.name.toLower = name) with
  | some c => c.id
  | none => ((categories.head?).map Category.id).getD ""

/-- The task details passed to `allocateTime` for a fixed commitment
(`Omit<Task, 'startTime' | 'endTime'>` in the source; `allocateTime`
overwrites the zero placeholders for `startTime`/`endTime`). -/
def fixedTaskDetails (categories : List Category) (nowMs : Int) (ft : FixedTaskSpec) : Task :=
  { id := ft.id, title := ft.title, description := none,
    startTime := 0, endTime := 0,
    status := Status.pending, priority := ft.priority,
    categoryId := findCategoryId categories ft.category,
    order := 0, createdAt := nowMs }

/-- The `fixedTasks` list: sleep before work, as in the source. -/
def fixedTasks (sleepDuration workDuration : Int) (sleepId workId : String) :
    List FixedTaskSpec :=
  [ { id := sleepId, title := "Sleeping Time", durationHours := sleepDuration,
      category := "rest", priority := Priority.low },
    { id := workId, title := "Work/School Time", durationHours := workDuration,
      category := "work", priority := Priority.high } ]

/-- `scheduleDurationTasks` from `SetupModal`.  `today` is
`dayjs().startOf('day').valueOf()` and `nowMs` is `Date.now()`; both are
parameters (clock collaborator).  `Array.prototype.sort` is stable and is
modelled by the stable `List.insertionSort` under the comparator's
ordering: `(a, b) => b.endTime - a.endTime` sorts by descending `endTime`
(which stores the duration of a staged duration task), and
`(a, b) => a.startTime - b.startTime` sorts ascending by start.  The final
`map` reassigns `order` to the 0-based rank. -/
def scheduleDurationTasks (today : Int) (sleepDuration workDuration : Int)
    (tempTasks : List Task) (categories : List Category)
    (sleepId workId : String) (nowMs : Int) : List Task :=
  let freeSlots : List FreeSlot := [{ start := today, «end» := today + 24 * 60 * 60 * 1000 }]
  let st0 : List Task × List FreeSlot := ([], freeSlots)
  let st1 := (fixedTasks sleepDuration workDuration sleepId workId).foldl
    (fun st ft =>
      if ft.durationHours ≤ 0 then st
      else allocStep st (ft.durationHours * 60 * 60 * 1000)
        (fixedTaskDetails categories nowMs ft)) st0
  let userDurationTasks :=
    List.insertionSort (fun a b : Task => b.endTime ≤ a.endTime) tempTasks
  let st2 := userDurationTasks.foldl (fun st dt => allocStep st dt.endTime dt) st1
  ((List.insertionSort (fun a b : Task => a.startTime ≤ b.startTime) st2.1).enum).map
    (fun p => { p.2 with order := p.1 })

/-- The three-case overlap test of `SetupModal.handleSaveTask` between the
edited `task` and one `existingTask` of the previewed schedule (the
disjunction inside `previewedTasks.some(...)`, without the id guard). -/
def overlapsCheck (task existingTask : Task) : Bool :=
  (task.startTime ≥ existingTask.startTime && task.startTime < existingTask.endTime) ||
  (task.endTime > existingTask.startTime && task.endTime ≤ existingTask.endTime) ||
  (task.startTime ≤ existingTask.startTime && task.endTime ≥ existingTask.endTime)

/-- The half-open overlap relation of the specification:
`a.start < b.end AND b.start < a.end`. -/
def overlaps (a b : Task) : Prop :=
  a.startTime < b.endTime ∧ b.startTime < a.endTime

instance (a b : Task) : Decidable (overlaps a b) :=
  inferInstanceAs (Decidable (_ ∧ _))

/-- The React state of `SetupModal` that `handleSaveTask` touches. -/
structure SetupState where
  previewedTasks : Option (List Task)
  tempTasks : List Task
deriving Repr, DecidableEq

/-- `SetupModal.handleSaveTask`: when the saved task belongs to the
previewed schedule, reject the edit if it overlaps any *other* previewed
task (the `overlaps` check with `existingTask.id !== task.id`), else
replace it and re-sort by start time; otherwise update or append to
`tempTasks`. -/
def handleSaveTask (st : SetupState) (task : Task) : SetupState :=
  match st.previewedTasks with
  | some previewed =>
    if previewed.any (fun t => t.id = task.id) then
      let overlapsFound := previewed.any (fun existingTask =>
        existingTask.id ≠ task.id && overlapsCheck task existingTask)
      if overlapsFound then st
      else
        { st with previewedTasks := some (List.insertionSort
            (fun a b : Task => a.startTime ≤ b.startTime)
            (previewed.map (fun t => if t.id = task.id then task else t))) }
    else
      match st.tempTasks.find? (fun t => t.id = task.id) with
      | some _ => { st with tempTasks := st.tempTasks.map (fun t => if t.id = task.id then task else t) }
      | none => { st with tempTasks := st.tempTasks ++ [{ task with order := st.tempTasks.length }] }
  | none =>
    match st.tempTasks.find? (fun t => t.id = task.id) with
    | some _ => { st with tempTasks := st.tempTasks.map (fun t => if t.id = task.id then task else t) }
    | none => { st with tempTasks := st.tempTasks ++ [{ task with order := st.tempTasks.length }] }

/-- The per-task predicate inside `findCurrentTask` (`DashboardPage`):
`now >= t.startTime && now <= t.endTime && t.status !== 'completed'`. -/
def isCurrentTask (now : Int) (t : Task) : Bool :=
  now ≥ t.startTime && now ≤ t.endTime && t.status ≠ Status.completed

/-- `findCurrentTask` from `DashboardPage`: the first task classified as
current. -/
def findCurrentTask (now : Int) (tasks : List Task) : Option Task :=
  tasks.find? (isCurrentTask now)

/-- `handleStatusChange` from `TaskItem`: toggle between completed and
pending, keeping every other field. -/
def handleStatusChange (task : Task) : Task :=
  { task with status := if task.status = Status.completed then Status.pending else Status.completed }

/-- `addCompletedTask` from `DataProvider` (App.tsx): append an immutable
`CompletedTask` snapshot unless one with the same id is already in the
history. -/
def addCompletedTask (history : List CompletedTask) (task : Task) (nowMs : Int) :
    List CompletedTask :=
  if history.any (fun h => h.id = task.id) then history
  else history ++
    [{ toTask := { task with status := Status.completed }, completedAt := nowMs }]

/-- Iterated completion of the same task within a session (e.g. a bulk
action re-applied `n` times). -/
def completeTimes : Nat → List CompletedTask → Task → Int → List CompletedTask
  | 0, history, _, _ => history
  | n + 1, history, task, nowMs => completeTimes n (addCompletedTask history task nowMs) task nowMs

/-- What a timer armed by `scheduleTaskNotifications` will do when it
fires (the two `setTimeout` callback bodies). -/
inductive TimerAction where
  | notifyStart (taskId title : String)
  | notifyEnd (taskId title : String)
deriving Repr, DecidableEq

/-- A pending timer handle: the computed delay plus its callback. -/
structure Timer where
  delay : Int
  action : TimerAction
deriving Repr, DecidableEq

/-- The module-level `scheduledNotifications = new Map<string, number[]>()`
of services.ts, modelled as an association list from task id to the live
timers for that id (`Map.get`/`Map.set`/`Map.delete` below). -/
abbrev Registry := List (String × List Timer)

/-- `scheduledNotifications.get(taskId)` with a missing key read as `[]`. -/
def registryGet (reg : Registry) (taskId : String) : List Timer :=
  match reg.find? (fun p => p.1 = taskId) with
  | some p => p.2
  | none => []

/-- `scheduledNotifications.set(taskId, timeoutIds)`: a JS `Map` keeps at
most one entry per key. -/
def registrySet (reg : Registry) (taskId : String) (timers : List Timer) : Registry :=
  reg.filter (fun p => p.1 ≠ taskId) ++ [(taskId, timers)]

/-- `notificationService.cancelTaskNotifications`: clear all timeouts for
the id and delete the map entry. -/
def cancelTaskNotifications (reg : Registry) (taskId : String) : Registry :=
  reg.filter (fun p => p.1 ≠ taskId)

/-- `notificationService.scheduleTaskNotifications` (the `arm` operation):
cancel first, bail out for completed tasks, then arm a start timer if
`task.startTime > now` and an end timer if `task.endTime > now`, storing
them in the registry only when any were armed. -/
def scheduleTaskNotifications (reg : Registry) (task : Task) (now : Int) : Registry :=
  let reg' := cancelTaskNotifications reg task.id
  if task.status = Status.completed then reg'
  else
    let timeoutIds : List Timer :=
      (if task.startTime > now then
        [{ delay := task.startTime - now, action := TimerAction.notifyStart task.id task.title }]
       else []) ++
      (if task.endTime > now then
        [{ delay := task.endTime - now, action := TimerAction.notifyEnd task.id task.title }]
       else [])
    if timeoutIds.length > 0 then registrySet reg' task.id timeoutIds else reg'

/-- The notifications the service can emit at fire time. -/
inductive Notification where
  | taskStarted (title : String)
  | taskOverdue (title : String)
  | taskEnded (title : String)
deriving Repr, DecidableEq

/-- The body of the end-timer `setTimeout` callback in
`scheduleTaskNotifications`: re-fetch the task from the `tasks` store
(`db.get<Task>('tasks', task.id)`, modelled as the `fetch` collaborator)
and emit "Task Overdue" when `currentTask?.status !== 'completed'`, else
"Task Ended". -/
def endTimerFire (fetch : String → Option Task) (task : Task) : Notification :=
  if (fetch task.id).map Task.status ≠ some Status.completed then
    Notification.taskOverdue task.title
  else
    Notification.taskEnded task.title

/-! ### Concrete instances used to exercise the definitions -/

/-- The `defaultCategories` of `DataProvider` (App.tsx). -/
def defaultCategories : List Category :=
  [ { id := "work", name := "Work", color := "#ef4444" },
    { id := "study", name := "Study", color := "#3b82f6" },
    { id := "exercise", name := "Exercise", color := "#22c55e" },
    { id := "gaming", name := "Gaming", color := "#8b5cf6" },
    { id := "rest", name := "Rest", color := "#64748b" } ]

/-- A staged duration-mode task as built by `handleAddOrUpdateDurationTask`
(duration in ms stored in `endTime`, `startTime` 0); the duration argument
is left unconstrained to probe the allocator on arbitrary inputs. -/
def stagedTask (id : String) (durationMs : Int) : Task :=
  { id := id, title := id, description := some "Duration-based task",
    startTime := 0, endTime := durationMs, status := Status.pending,
    priority := Priority.medium, categoryId := "study",
    order := 0, createdAt := 0 }

/-- A previewed task with explicit clock times, as produced by the
allocator and then edited through `TaskModal`. -/
def clockTask (id : String) (s e : Int) : Task :=
  { id := id, title := id, description := none,
    startTime := s, endTime := e, status := Status.pending,
    priority := Priority.medium, categoryId := "study",
    order := 0, createdAt := 0 }

/-- A task store holding one completed task with id "p", standing for the
`tasks` object store at end-timer fire time. -/
def fetchSample : String → Option Task := fun i =>
  if i = "p" then some { stagedTask "p" 100 with status := Status.completed } else none

/-! ### Allocator invariants -/

/-- Free slots are kept in increasing order and disjoint. -/
def SlotLe (a b : FreeSlot) : Prop := a.«end» ≤ b.start

/-- The free-slot list is well-formed for the scheduling day `[lo, hi]`:
each slot lies inside the day with non-negative length, and the list is
ordered and disjoint. -/
def SlotsOK (lo hi : Int) (slots : List FreeSlot) : Prop :=
  (∀ s ∈ slots, lo ≤ s.start ∧ s.«end» ≤ hi ∧ s.start ≤ s.«end») ∧
  slots.Pairwise SlotLe

/-- A task interval lies inside the scheduling day and is well-formed. -/
def TaskIn (lo hi : Int) (t : Task) : Prop :=
  lo ≤ t.startTime ∧ t.startTime ≤ t.endTime ∧ t.endTime ≤ hi

/-- Invariant of the allocator state (scheduled tasks, free slots): slots
are well-formed, tasks lie in the day, tasks and slots are disjoint, and
tasks are pairwise non-overlapping. -/
def StateOK (lo hi : Int) (st : List Task × List FreeSlot) : Prop :=
  SlotsOK lo hi st.2 ∧
  (∀ t ∈ st.1, TaskIn lo hi t) ∧
  (∀ t ∈ st.1, ∀ s ∈ st.2, t.endTime ≤ s.start ∨ s.«end» ≤ t.startTime) ∧
  st.1.Pairwise (fun a b => ¬ overlaps a b)

theorem allocateTime_sound {lo hi : Int} (d : Int) (details : Task) :
    ∀ (slots : List FreeSlot) (placed : Task) (slots' : List FreeSlot),
      0 ≤ d → SlotsOK lo hi slots →
      allocateTime d details slots = some (placed, slots') →
      TaskIn lo hi placed ∧
      SlotsOK lo hi slots' ∧
      (∀ s' ∈ slots', placed.endTime ≤ s'.start ∨ s'.«end» ≤ placed.startTime) ∧
      (∀ s' ∈ slots', ∃ s ∈ slots, s.start ≤ s'.start ∧ s'.«end» ≤ s.«end») ∧
      (∃ s ∈ slots, s.start ≤ placed.startTime ∧ placed.endTime ≤ s.«end») := by
  intro slots
  induction slots with
  | nil =>
    intro placed slots' _ _ h
    simp [allocateTime] at h
  | cons slot rest ih =>
    intro placed slots' hd hok heq
    obtain ⟨hin, hpw⟩ := hok
    have hslot := hin slot (List.mem_cons_self _ _)
    have hrest_in : ∀ s ∈ rest, lo ≤ s.start ∧ s.«end» ≤ hi ∧ s.start ≤ s.«end» :=
      fun s hs => hin s (List.mem_cons_of_mem _ hs)
    rw [List.pairwise_cons] at hpw
    obtain ⟨hhead, hpwrest⟩ := hpw
    simp only [allocateTime] at heq
    split at heq
    · -- the first slot fits
      next hfit =>
      split at heq
      · -- a non-empty tail of the slot remains
        next hrem =>
        simp only [Option.some.injEq, Prod.mk.injEq] at heq
        obtain ⟨hp, hs⟩ := heq
        subst hp; subst hs
        obtain ⟨h1, h2, h3⟩ := hslot
        refine ⟨?_, ⟨?_, ?_⟩, ?_, ?_, ?_⟩
        · exact ⟨by simpa using h1, by simp; omega, by simp; omega⟩
        · intro s hs
          rcases List.mem_cons.mp hs with h | h
          · subst h; refine ⟨by simp; omega, by simpa using h2, by simp; omega⟩
          · exact hrest_in s h
        · refine List.pairwise_cons.mpr ⟨?_, hpwrest⟩
          intro s hs
          simpa [SlotLe] using hhead s hs
        · intro s' hs'
          rcases List.mem_cons.mp hs' with h | h
          · subst h; left; simp
          · left; have := hhead s' h; simp [SlotLe] at this ⊢; omega
        · intro s' hs'
          rcases List.mem_cons.mp hs' with h | h
          · subst h
            exact ⟨slot, List.mem_cons_self _ _, by simp; omega, by simp⟩
          · exact ⟨s', List.mem_cons_of_mem _ h, le_refl _, le_refl _⟩
        · exact ⟨slot, List.mem_cons_self _ _, by simp, by simp; omega⟩
      · -- the task exactly fills the slot; the slot is removed
        next hrem =>
        simp only [Option.some.injEq, Prod.mk.injEq] at heq
        obtain ⟨hp, hs⟩ := heq
        subst hp; subst hs
        obtain ⟨h1, h2, h3⟩ := hslot
        refine ⟨?_, ⟨hrest_in, hpwrest⟩, ?_, ?_, ?_⟩
        · exact ⟨by simpa using h1, by simp; omega, by simp; omega⟩
        · intro s' hs'
          left; have := hhead s' hs'; simp [SlotLe] at this ⊢; omega
        · intro s' hs'
          exact ⟨s', List.mem_cons_of_mem _ hs', le_refl _, le_refl _⟩
        · exact ⟨slot, List.mem_cons_self _ _, by simp, by simp; omega⟩
    · -- the first slot does not fit: recurse on the rest
      next hfit =>
      split at heq
      · exact absurd heq (by simp)
      · next placed' rest' hrec =>
        simp only [Option.some.injEq, Prod.mk.injEq] at heq
        obtain ⟨hp, hs⟩ := heq
        subst hp; subst hs
        obtain ⟨htask, ⟨hin', hpw'⟩, hsep', hsub', s₀, hs₀, hws, hwe⟩ :=
          ih placed' rest' hd ⟨hrest_in, hpwrest⟩ hrec
        have hheadle : ∀ s' ∈ rest', slot.«end» ≤ s'.start := by
          intro s' hs'
          obtain ⟨s, hsmem, hle1, _⟩ := hsub' s' hs'
          have := hhead s hsmem
          simp [SlotLe] at this
          omega
        refine ⟨htask, ⟨?_, ?_⟩, ?_, ?_, ?_⟩
        · intro s hs
          rcases List.mem_cons.mp hs with h | h
          · subst h; exact hslot
          · exact hin' s h
        · refine List.pairwise_cons.mpr ⟨?_, hpw'⟩
          intro s' hs'
          exact hheadle s' hs'
        · intro s' hs'
          rcases List.mem_cons.mp hs' with h | h
          · subst h
            right
            have := hhead s₀ hs₀
            simp [SlotLe] at this
            omega
          · exact hsep' s' h
        · intro s' hs'
          rcases List.mem_cons.mp hs' with h | h
          · subst h; exact ⟨s', List.mem_cons_self _ _, le_refl _, le_refl _⟩
          · obtain ⟨s, hsmem, hle1, hle2⟩ := hsub' s' h
            exact ⟨s, List.mem_cons_of_mem _ hsmem, hle1, hle2⟩
        · exact ⟨s₀, List.mem_cons_of_mem _ hs₀, hws, hwe⟩

theorem allocStep_ok {lo hi : Int} {d : Int} {details : Task}
    {st : List Task × List FreeSlot} (hd : 0 ≤ d) (h : StateOK lo hi st) :
    StateOK lo hi (allocStep st d details) := by
  unfold allocStep
  obtain ⟨hslots, htasks, hsep, hpw⟩ := h
  cases heq : allocateTime d details st.2 with
  | none => exact ⟨hslots, htasks, hsep, hpw⟩
  | some pr =>
    obtain ⟨placed, slots'⟩ := pr
    obtain ⟨htask, hslots', hsep', hsub', s₀, hs₀, hws, hwe⟩ :=
      allocateTime_sound d details st.2 placed slots' hd hslots heq
    refine ⟨hslots', ?_, ?_, ?_⟩
    · intro t ht
      rcases List.mem_append.mp ht with h | h
      · exact htasks t h
      · rcases List.mem_singleton.mp h with rfl
        exact htask
    · intro t ht s' hs'
      rcases List.mem_append.mp ht with h | h
      · obtain ⟨s, hsmem, hle1, hle2⟩ := hsub' s' hs'
        rcases hsep t h s hsmem with hc | hc
        · left; omega
        · right; omega
      · rcases List.mem_singleton.mp h with rfl
        exact hsep' s' hs'
    · refine List.pairwise_append.mpr ⟨hpw, List.pairwise_singleton _ _, ?_⟩
      intro a ha b hb
      rcases List.mem_singleton.mp hb with rfl
      rcases hsep a ha s₀ hs₀ with hc | hc <;>
        · simp only [overlaps, not_and, not_lt]
          intro _
          omega

/-- A fold preserves a predicate when every step taken on a list member
does. -/
theorem foldl_preserves {α β : Type} {P : α → Prop} {f : α → β → α} :
    ∀ (l : List β) (a : α), (∀ b ∈ l, ∀ x, P x → P (f x b)) → P a → P (l.foldl f a)
  | [], _, _, ha => ha
  | b :: l, a, hf, ha =>
    foldl_preserves l (f a b) (fun c hc => hf c (List.mem_cons_of_mem _ hc))
      (hf b (List.mem_cons_self _ _) a ha)

/-- The second component of an element of `enumFrom` is in the list. -/
theorem snd_mem_of_mem_enumFrom {α : Type} :
    ∀ {l : List α} {n : Nat} {p : Nat × α}, p ∈ l.enumFrom n → p.2 ∈ l := by
  intro l
  induction l with
  | nil => intro n p h; simp [List.enumFrom] at h
  | cons a l ih =>
    intro n p h
    rw [List.enumFrom] at h
    rcases List.mem_cons.mp h with h | h
    · subst h; exact List.mem_cons_self _ _
    · exact List.mem_cons_of_mem _ (ih h)

/-- `Pairwise` transfers from a list to its enumeration. -/
theorem pairwise_enumFrom {α : Type} {R : α → α → Prop} :
    ∀ (l : List α) (n : Nat), l.Pairwise R →
      (l.enumFrom n).Pairwise (fun p q => R p.2 q.2) := by
  intro l
  induction l with
  | nil => intro n _; simp [List.enumFrom]
  | cons a l ih =>
    intro n h
    rw [List.pairwise_cons] at h
    obtain ⟨ha, hl⟩ := h
    rw [List.enumFrom]
    refine List.pairwise_cons.mpr ⟨?_, ih (n + 1) hl⟩
    intro q hq
    exact ha q.2 (snd_mem_of_mem_enumFrom hq)

/-- The half-open overlap relation is symmetric, hence so is its
negation. -/
theorem overlaps_symm {a b : Task} (h : overlaps a b) : overlaps b a :=
  ⟨h.2, h.1⟩

/-- `scheduleDurationTasks` with its local definitions expanded. -/
theorem scheduleDurationTasks_eq (today sleepDuration workDuration : Int)
    (tempTasks : List Task) (categories : List Category)
    (sleepId workId : String) (nowMs : Int) :
    scheduleDurationTasks today sleepDuration workDuration tempTasks categories sleepId workId nowMs =
      ((List.insertionSort (fun a b : Task => a.startTime ≤ b.startTime)
        ((List.insertionSort (fun a b : Task => b.endTime ≤ a.endTime) tempTasks).foldl
          (fun st dt => allocStep st dt.endTime dt)
          ((fixedTasks sleepDuration workDuration sleepId workId).foldl
            (fun st ft =>
              if ft.durationHours ≤ 0 then st
              else allocStep st (ft.durationHours * 60 * 60 * 1000)
                (fixedTaskDetails categories nowMs ft))
            ([], [{ start := today, «end» := today + 24 * 60 * 60 * 1000 }]))).1).enum).map
        (fun p => { p.2 with order := p.1 }) := rfl

/-- The allocator state after placing the fixed commitments and the user
duration tasks satisfies the allocation invariant, provided every user
duration task has a non-negative duration. -/
theorem allocState_ok (today sleepDuration workDuration : Int)
    (tempTasks : List Task) (categories : List Category)
    (sleepId workId : String) (nowMs : Int)
    (hpos : ∀ dt ∈ tempTasks, 0 ≤ dt.endTime) :
    StateOK today (today + 24 * 60 * 60 * 1000)
      ((List.insertionSort (fun a b : Task => b.endTime ≤ a.endTime) tempTasks).foldl
        (fun st dt => allocStep st dt.endTime dt)
        ((fixedTasks sleepDuration workDuration sleepId workId).foldl
          (fun st ft =>
            if ft.durationHours ≤ 0 then st
            else allocStep st (ft.durationHours * 60 * 60 * 1000)
              (fixedTaskDetails categories nowMs ft))
          ([], [{ start := today, «end» := today + 24 * 60 * 60 * 1000 }]))) := by
  apply foldl_preserves
  · intro dt hdt st hst
    exact allocStep_ok (hpos dt ((List.mem_insertionSort _).mp hdt)) hst
  · apply foldl_preserves
    · intro ft _ st hst
      by_cases hft : ft.durationHours ≤ 0
      · simpa [hft] using hst
      · rw [if_neg hft]
        exact allocStep_ok (by omega) hst
    · refine ⟨⟨?_, List.pairwise_singleton _ _⟩, ?_, ?_, List.Pairwise.nil⟩
      · intro s hs
        rcases List.mem_singleton.mp hs with rfl
        refine ⟨le_refl _, le_refl _, ?_⟩
        show today ≤ today + 24 * 60 * 60 * 1000
        omega
      · intro t ht; simp at ht
      · intro t ht; simp at ht

/-- Every task of the allocator output is, up to the final `order`
reassignment, a task of the allocator state. -/
theorem mem_scheduleDurationTasks (today sleepDuration workDuration : Int)
    (tempTasks : List Task) (categories : List Category)
    (sleepId workId : String) (nowMs : Int) {t : Task}
    (ht : t ∈ scheduleDurationTasks today sleepDuration workDuration tempTasks categories sleepId workId nowMs) :
    ∃ u ∈ ((List.insertionSort (fun a b : Task => b.endTime ≤ a.endTime) tempTasks).foldl
        (fun st dt => allocStep st dt.endTime dt)
        ((fixedTasks sleepDuration workDuration sleepId workId).foldl
          (fun st ft =>
            if ft.durationHours ≤ 0 then st
            else allocStep st (ft.durationHours * 60 * 60 * 1000)
              (fixedTaskDetails categories nowMs ft))
          ([], [{ start := today, «end» := today + 24 * 60 * 60 * 1000 }]))).1,
      ∃ i : Nat, t = { u with order := i } := by
  rw [scheduleDurationTasks_eq] at ht
  obtain ⟨p, hp, rfl⟩ := List.mem_map.mp ht
  have h2 : p.2 ∈ List.insertionSort (fun a b : Task => a.startTime ≤ b.startTime) _ :=
    snd_mem_of_mem_enumFrom (by simpa [List.enum] using hp)
  exact ⟨p.2, (List.mem_insertionSort _).mp h2, p.1, rfl⟩

/-- Claim C1 (amended): for every input to the duration-mode allocator in
which every user duration task has a non-negative duration, every pair of
distinct tasks in the allocator output satisfies
NOT(a.start < b.end AND b.start < a.end) — no two scheduled tasks
overlap. -/
theorem scheduleDurationTasks_no_overlap (today sleepDuration workDuration : Int)
    (tempTasks : List Task) (categories : List Category)
    (sleepId workId : String) (nowMs : Int)
    (hpos : ∀ dt ∈ tempTasks, 0 ≤ dt.endTime) :
    ∀ a ∈ scheduleDurationTasks today sleepDuration workDuration tempTasks categories sleepId workId nowMs,
    ∀ b ∈ scheduleDurationTasks today sleepDuration workDuration tempTasks categories sleepId workId nowMs,
      a ≠ b → ¬ (a.startTime < b.endTime ∧ b.startTime < a.endTime) := by
  obtain ⟨-, -, -, hpw⟩ :=
    allocState_ok today sleepDuration workDuration tempTasks categories sleepId workId nowMs hpos
  have hsymm : ∀ {x y : Task}, ¬ overlaps x y → ¬ overlaps y x := by
    intro x y hxy h
    exact hxy (overlaps_symm h)
  have hpw2 := (List.Perm.pairwise_iff hsymm
    (List.perm_insertionSort (fun a b : Task => a.startTime ≤ b.startTime) _)).mpr hpw
  have hpw3 := pairwise_enumFrom _ 0 hpw2
  have hpw4 : (scheduleDurationTasks today sleepDuration workDuration tempTasks categories
      sleepId workId nowMs).Pairwise (fun a b => ¬ overlaps a b) := by
    rw [scheduleDurationTasks_eq]
    exact List.pairwise_map.mpr hpw3
  intro a ha b hb hne
  have hsymm2 : Symmetric (fun a b : Task => ¬ overlaps a b) := by
    intro x y hxy h
    exact hxy (overlaps_symm h)
  exact List.Pairwise.forall hsymm2 hpw4 ha hb hne

/-- Witness for C1 at Scenario A: sleep 8 h, work 8 h, one 90-minute study
task. -/
theorem scheduleDurationTasks_no_overlap_witness :
    (∀ dt ∈ [stagedTask "study" (90 * 60 * 1000)], (0 : Int) ≤ dt.endTime) ∧
    (∀ a ∈ scheduleDurationTasks 0 8 8 [stagedTask "study" (90 * 60 * 1000)]
        defaultCategories "sleep-id" "work-id" 0,
     ∀ b ∈ scheduleDurationTasks 0 8 8 [stagedTask "study" (90 * 60 * 1000)]
        defaultCategories "sleep-id" "work-id" 0,
      a ≠ b → ¬ (a.startTime < b.endTime ∧ b.startTime < a.endTime)) :=
  ⟨by decide,
   scheduleDurationTasks_no_overlap 0 8 8 [stagedTask "study" (90 * 60 * 1000)]
     defaultCategories "sleep-id" "work-id" 0 (by decide)⟩

/-- Counterexample to C1 as stated: with user duration tasks of 10 ms,
−1 ms and −2 ms (which the allocator accepts without a sign check), the
output contains two distinct tasks whose intervals overlap. -/
theorem scheduleDurationTasks_overlap_cex :
    ¬ (∀ a ∈ scheduleDurationTasks 0 0 0
          [stagedTask "a" 10, stagedTask "b" (-1), stagedTask "c" (-2)] [] "s" "w" 0,
       ∀ b ∈ scheduleDurationTasks 0 0 0
          [stagedTask "a" 10, stagedTask "b" (-1), stagedTask "c" (-2)] [] "s" "w" 0,
        a ≠ b → ¬ (a.startTime < b.endTime ∧ b.startTime < a.endTime)) := by
  decide

/-- Claim C2 (amended): for every input to the duration-mode allocator in
which every user duration task has a non-negative duration, every task in
its output has dayStart ≤ start and end ≤ dayStart + 24h. -/
theorem scheduleDurationTasks_within_day (today sleepDuration workDuration : Int)
    (tempTasks : List Task) (categories : List Category)
    (sleepId workId : String) (nowMs : Int)
    (hpos : ∀ dt ∈ tempTasks, 0 ≤ dt.endTime) :
    ∀ t ∈ scheduleDurationTasks today sleepDuration workDuration tempTasks categories sleepId workId nowMs,
      today ≤ t.startTime ∧ t.endTime ≤ today + 24 * 60 * 60 * 1000 := by
  intro t ht
  obtain ⟨u, hu, i, rfl⟩ :=
    mem_scheduleDurationTasks today sleepDuration workDuration tempTasks categories sleepId workId nowMs ht
  obtain ⟨-, htasks, -, -⟩ :=
    allocState_ok today sleepDuration workDuration tempTasks categories sleepId workId nowMs hpos
  obtain ⟨h1, h2, h3⟩ := htasks u hu
  exact ⟨h1, h3⟩

/-- Witness for C2 at Scenario A. -/
theorem scheduleDurationTasks_within_day_witness :
    (∀ dt ∈ [stagedTask "study" (90 * 60 * 1000)], (0 : Int) ≤ dt.endTime) ∧
    (∀ t ∈ scheduleDurationTasks 0 8 8 [stagedTask "study" (90 * 60 * 1000)]
        defaultCategories "sleep-id" "work-id" 0,
      (0 : Int) ≤ t.startTime ∧ t.endTime ≤ 0 + 24 * 60 * 60 * 1000) :=
  ⟨by decide,
   scheduleDurationTasks_within_day 0 8 8 [stagedTask "study" (90 * 60 * 1000)]
     defaultCategories "sleep-id" "work-id" 0 (by decide)⟩

/-- Counterexample to C2 as stated: with user duration tasks of −1 ms and
−2 ms the allocator schedules a task starting before the day start. -/
theorem scheduleDurationTasks_within_day_cex :
    ¬ (∀ t ∈ scheduleDurationTasks 0 0 0
          [stagedTask "a" (-1), stagedTask "b" (-2)] [] "s" "w" 0,
        (0 : Int) ≤ t.startTime ∧ t.endTime ≤ 0 + 24 * 60 * 60 * 1000) := by
  decide

/-- Claim C3 (amended): `findCurrentTask` classifies a task as current iff
now lies in the CLOSED interval [t.start, t.end] and t.status is not
completed; in particular a task whose end equals now IS still current. -/
theorem isCurrentTask_iff (now : Int) (t : Task) :
    isCurrentTask now t = true ↔
      (t.startTime ≤ now ∧ now ≤ t.endTime ∧ t.status ≠ Status.completed) := by
  simp [isCurrentTask, and_assoc]

/-- Counterexample to C3 as stated: at `now` equal to the task's end the
code still classifies the task as current, while the claimed half-open
interval [start, end) excludes it. -/
theorem isCurrentTask_halfopen_cex :
    ¬ (isCurrentTask 100 (stagedTask "b" 100) = true ↔
       ((stagedTask "b" 100).startTime ≤ 100 ∧ 100 < (stagedTask "b" 100).endTime ∧
        (stagedTask "b" 100).status ≠ Status.completed)) := by
  decide

/-- The three-case test implies the half-open overlap relation when both
intervals satisfy start < end. -/
theorem overlapsCheck_implies_overlaps {a o : Task}
    (ha : a.startTime < a.endTime) (ho : o.startTime < o.endTime)
    (h : overlapsCheck a o = true) :
    a.startTime < o.endTime ∧ o.startTime < a.endTime := by
  simp only [overlapsCheck, Bool.or_eq_true, Bool.and_eq_true, decide_eq_true_eq] at h
  omega

/-- The half-open overlap relation implies the three-case test, with no
side conditions. -/
theorem overlaps_implies_check {a o : Task}
    (h1 : a.startTime < o.endTime) (h2 : o.startTime < a.endTime) :
    overlapsCheck a o = true := by
  simp only [overlapsCheck, Bool.or_eq_true, Bool.and_eq_true, decide_eq_true_eq]
  omega

/-- Claim C4: for every candidate and list of other intervals each
satisfying start < end, the three-case validator test over the list holds
iff some other interval o satisfies candidate.start < o.end AND
o.start < candidate.end — the implemented predicate is equivalent to the
half-open overlap definition, so shared boundary endpoints do not count
as overlap. -/
theorem overlapsCheck_any_iff (candidate : Task) (others : List Task)
    (hc : candidate.startTime < candidate.endTime)
    (ho : ∀ o ∈ others, o.startTime < o.endTime) :
    (others.any fun o => overlapsCheck candidate o) = true ↔
      ∃ o ∈ others, candidate.startTime < o.endTime ∧ o.startTime < candidate.endTime := by
  rw [List.any_eq_true]
  constructor
  · rintro ⟨o, hmem, hchk⟩
    exact ⟨o, hmem, overlapsCheck_implies_overlaps hc (ho o hmem) hchk⟩
  · rintro ⟨o, hmem, h1, h2⟩
    exact ⟨o, hmem, overlaps_implies_check h1 h2⟩

/-- Witness for C4 at Scenario C: candidate [09:00, 10:00) against an
interval [09:30, 10:30) — the validator reports an overlap, and a shared
endpoint alone would not. -/
theorem overlapsCheck_any_iff_witness :
    ((clockTask "x" 32400000 36000000).startTime < (clockTask "x" 32400000 36000000).endTime) ∧
    ((∀ o ∈ [clockTask "y" 34200000 37800000], o.startTime < o.endTime)) ∧
    (([clockTask "y" 34200000 37800000].any
        fun o => overlapsCheck (clockTask "x" 32400000 36000000) o) = true ↔
      ∃ o ∈ [clockTask "y" 34200000 37800000],
        (clockTask "x" 32400000 36000000).startTime < o.endTime ∧
        o.startTime < (clockTask "x" 32400000 36000000).endTime) :=
  ⟨by decide, by decide,
   overlapsCheck_any_iff (clockTask "x" 32400000 36000000) [clockTask "y" 34200000 37800000]
     (by decide) (by decide)⟩

/-- Claim C5: when a user edit of a task belonging to the previewed
schedule overlaps some other previewed task (the task's own prior version
excluded by the id guard), `handleSaveTask` leaves the whole setup state —
in particular the previewed task list — exactly as it was. -/
theorem handleSaveTask_rejects_overlap (st : SetupState) (previewed : List Task) (task : Task)
    (hprev : st.previewedTasks = some previewed)
    (hmem : ∃ t ∈ previewed, t.id = task.id)
    (hover : ∃ o ∈ previewed, o.id ≠ task.id ∧
      task.startTime < o.endTime ∧ o.startTime < task.endTime) :
    handleSaveTask st task = st := by
  obtain ⟨o, ho, hid, h1, h2⟩ := hover
  have hany : (previewed.any fun t => t.id = task.id) = true := by
    rw [List.any_eq_true]
    obtain ⟨t, ht, hte⟩ := hmem
    exact ⟨t, ht, by simpa using hte⟩
  have hovl : (previewed.any fun existingTask =>
      existingTask.id ≠ task.id && overlapsCheck task existingTask) = true := by
    rw [List.any_eq_true]
    refine ⟨o, ho, ?_⟩
    simp only [Bool.and_eq_true, decide_eq_true_eq]
    exact ⟨hid, overlaps_implies_check h1 h2⟩
  simp only [handleSaveTask, hprev, hany, hovl, if_true]

/-- Witness for C5 at Scenario C: editing previewed task "x" to
[09:00, 10:00) while previewed task "y" occupies [09:30, 10:30) leaves the
state unchanged. -/
theorem handleSaveTask_rejects_overlap_witness :
    (SetupState.mk (some [clockTask "x" 28800000 32400000, clockTask "y" 34200000 37800000])
        []).previewedTasks =
      some [clockTask "x" 28800000 32400000, clockTask "y" 34200000 37800000] ∧
    (∃ t ∈ [clockTask "x" 28800000 32400000, clockTask "y" 34200000 37800000],
      t.id = (clockTask "x" 32400000 36000000).id) ∧
    (∃ o ∈ [clockTask "x" 28800000 32400000, clockTask "y" 34200000 37800000],
      o.id ≠ (clockTask "x" 32400000 36000000).id ∧
      (clockTask "x" 32400000 36000000).startTime < o.endTime ∧
      o.startTime < (clockTask "x" 32400000 36000000).endTime) ∧
    handleSaveTask
      (SetupState.mk (some [clockTask "x" 28800000 32400000, clockTask "y" 34200000 37800000]) [])
      (clockTask "x" 32400000 36000000) =
      SetupState.mk (some [clockTask "x" 28800000 32400000, clockTask "y" 34200000 37800000]) [] :=
  ⟨rfl, by decide, by decide,
   handleSaveTask_rejects_overlap
     (SetupState.mk (some [clockTask "x" 28800000 32400000, clockTask "y" 34200000 37800000]) [])
     [clockTask "x" 28800000 32400000, clockTask "y" 34200000 37800000]
     (clockTask "x" 32400000 36000000) rfl (by decide) (by decide)⟩

/-- After cancelling an id, the registry holds no timers for it. -/
theorem registryGet_cancel (reg : Registry) (taskId : String) :
    registryGet (cancelTaskNotifications reg taskId) taskId = [] := by
  unfold registryGet cancelTaskNotifications
  have : List.find? (fun p : String × List Timer => p.1 = taskId)
      (reg.filter fun p => p.1 ≠ taskId) = none := by
    rw [List.find?_eq_none]
    intro p hp
    have := (List.mem_filter.mp hp).2
    simpa using this
  rw [this]

/-- Reading back the timers just stored for an id. -/
theorem registryGet_set (reg : Registry) (taskId : String) (timers : List Timer) :
    registryGet (registrySet reg taskId timers) taskId = timers := by
  unfold registryGet registrySet
  induction reg with
  | nil => simp
  | cons p reg ih =>
    by_cases hp : p.1 = taskId
    · simpa [hp] using ih
    · simpa [List.filter_cons, hp] using ih

/-- What `scheduleTaskNotifications` leaves registered for the armed
task's id, independently of the previous registry contents: nothing for a
completed task, else exactly the timers recomputed from `now`. -/
theorem registryGet_arm (reg : Registry) (task : Task) (now : Int) :
    registryGet (scheduleTaskNotifications reg task now) task.id =
      (if task.status = Status.completed then [] else
        (if task.startTime > now then
          [{ delay := task.startTime - now, action := TimerAction.notifyStart task.id task.title }]
         else []) ++
        (if task.endTime > now then
          [{ delay := task.endTime - now, action := TimerAction.notifyEnd task.id task.title }]
         else [])) := by
  unfold scheduleTaskNotifications
  by_cases hc : task.status = Status.completed
  · simp only [hc, if_true]
    exact registryGet_cancel reg task.id
  · simp only [hc, if_false]
    by_cases hlen :
        ((if task.startTime > now then
            ([{ delay := task.startTime - now,
                action := TimerAction.notifyStart task.id task.title }] : List Timer)
          else []) ++
         (if task.endTime > now then
            ([{ delay := task.endTime - now,
                action := TimerAction.notifyEnd task.id task.title }] : List Timer)
          else [])).length > 0
    · rw [if_pos hlen]
      exact registryGet_set _ _ _
    · rw [if_neg hlen, registryGet_cancel reg task.id]
      symm
      rw [← List.length_eq_zero]
      omega

/-- Claim C6: re-arming is idempotent — after arming a task twice in
succession the registry holds for that id exactly what a single arm at the
later instant registers, and that is never more than 2 timers (so never
4). -/
theorem scheduleTaskNotifications_rearm (reg : Registry) (task : Task) (n1 n2 : Int) :
    registryGet (scheduleTaskNotifications
        (scheduleTaskNotifications reg task n1) task n2) task.id =
      registryGet (scheduleTaskNotifications reg task n2) task.id ∧
    (registryGet (scheduleTaskNotifications
        (scheduleTaskNotifications reg task n1) task n2) task.id).length ≤ 2 := by
  constructor
  · rw [registryGet_arm, registryGet_arm]
  · rw [registryGet_arm]
    split
    · simp
    · rw [List.length_append]
      have h1 : (if task.startTime > n2 then
          [{ delay := task.startTime - n2, action := TimerAction.notifyStart task.id task.title }]
         else ([] : List Timer)).length ≤ 1 := by
        split <;> simp
      have h2 : (if task.endTime > n2 then
          [{ delay := task.endTime - n2, action := TimerAction.notifyEnd task.id task.title }]
         else ([] : List Timer)).length ≤ 1 := by
        split <;> simp
      omega

/-- Claim C10: arming a completed task cancels whatever was registered for
its id and arms nothing, leaving zero live timers for that id. -/
theorem scheduleTaskNotifications_completed (reg : Registry) (task : Task) (now : Int)
    (h : task.status = Status.completed) :
    registryGet (scheduleTaskNotifications reg task now) task.id = [] := by
  rw [registryGet_arm, if_pos h]

/-- Witness for C10: a completed task armed over a registry that already
held a timer for its id ends with no timers for that id. -/
theorem scheduleTaskNotifications_completed_witness :
    ({ stagedTask "p" 100 with status := Status.completed } : Task).status = Status.completed ∧
    registryGet (scheduleTaskNotifications
      [("p", [{ delay := 5, action := TimerAction.notifyStart "p" "p" }])]
      { stagedTask "p" 100 with status := Status.completed } 0)
      ({ stagedTask "p" 100 with status := Status.completed } : Task).id = [] :=
  ⟨rfl, scheduleTaskNotifications_completed
    [("p", [{ delay := 5, action := TimerAction.notifyStart "p" "p" }])]
    { stagedTask "p" 100 with status := Status.completed } 0 rfl⟩

/-- Completing a task whose id is already in the history leaves the
history unchanged. -/
theorem addCompletedTask_already (history : List CompletedTask) (task : Task) (nowMs : Int)
    (h : (history.any fun x => x.id = task.id) = true) :
    addCompletedTask history task nowMs = history := by
  unfold addCompletedTask
  rw [if_pos h]

/-- Iterated completion of a task whose id is already recorded changes
nothing. -/
theorem completeTimes_stable (task : Task) (nowMs : Int) :
    ∀ (n : Nat) (history : List CompletedTask),
      (history.any fun x => x.id = task.id) = true →
      completeTimes n history task nowMs = history
  | 0, _, _ => rfl
  | n + 1, history, h => by
    rw [completeTimes, addCompletedTask_already history task nowMs h]
    exact completeTimes_stable task nowMs n history h

/-- Claim C7: toggling a pending task's status twice through
`handleStatusChange` restores the task identically in every field, and
completing the same id any number of times against a history that does not
yet record it appends exactly one history entry for that id. -/
theorem toggle_roundtrip_history_once (t : Task) (history : List CompletedTask) (nowMs : Int)
    (hp : t.status = Status.pending)
    (hnone : (history.countP fun h => h.id = t.id) = 0) :
    handleStatusChange (handleStatusChange t) = t ∧
    ∀ n : Nat, ((completeTimes (n + 1) history t nowMs).countP fun h => h.id = t.id) = 1 := by
  constructor
  · cases t
    simp only [Status.pending] at hp
    subst hp
    simp [handleStatusChange]
  · have hanyfalse : (history.any fun x => x.id = t.id) = false := by
      rw [← Bool.not_eq_true, List.any_eq_true]
      rintro ⟨x, hx, hxe⟩
      have : 0 < history.countP fun h => h.id = t.id := by
        rw [List.countP_pos_iff]
        exact ⟨x, hx, hxe⟩
      omega
    have hone : (addCompletedTask history t nowMs).countP (fun h => h.id = t.id) = 1 := by
      unfold addCompletedTask
      rw [hanyfalse]
      simp only [Bool.false_eq_true, if_false, List.countP_append, hnone]
      simp
    have hany1 : ((addCompletedTask history t nowMs).any fun x => x.id = t.id) = true := by
      rw [List.any_eq_true]
      have : 0 < (addCompletedTask history t nowMs).countP fun h => h.id = t.id := by omega
      rw [List.countP_pos_iff] at this
      obtain ⟨x, hx, hxe⟩ := this
      exact ⟨x, hx, hxe⟩
    intro n
    rw [completeTimes, completeTimes_stable t nowMs n _ hany1, hone]

/-- Witness for C7: a fresh pending task against an empty history, with
the completion applied three times. -/
theorem toggle_roundtrip_history_once_witness :
    (stagedTask "p" 100).status = Status.pending ∧
    (([] : List CompletedTask).countP fun h => h.id = (stagedTask "p" 100).id) = 0 ∧
    handleStatusChange (handleStatusChange (stagedTask "p" 100)) = stagedTask "p" 100 ∧
    ((completeTimes 3 [] (stagedTask "p" 100) 77).countP
      fun h => h.id = (stagedTask "p" 100).id) = 1 :=
  ⟨rfl, rfl,
   (toggle_roundtrip_history_once (stagedTask "p" 100) [] 77 rfl rfl).1,
   (toggle_roundtrip_history_once (stagedTask "p" 100) [] 77 rfl rfl).2 2⟩

/-- Claim C8: the end timer's callback decides from the task's current
persisted status — reading the store at fire time, not the snapshot armed
with the timer: it emits "task overdue" iff the stored task is not
completed and "task ended" iff it is, and the armed snapshot's own status
field is irrelevant to the outcome. -/
theorem endTimerFire_rereads_status (fetch : String → Option Task) (task current : Task)
    (hfetch : fetch task.id = some current) :
    (endTimerFire fetch task = Notification.taskOverdue task.title ↔
      current.status ≠ Status.completed) ∧
    (endTimerFire fetch task = Notification.taskEnded task.title ↔
      current.status = Status.completed) ∧
    (∀ s : Status, endTimerFire fetch { task with status := s } = endTimerFire fetch task) := by
  refine ⟨?_, ?_, ?_⟩
  · unfold endTimerFire
    rw [hfetch]
    by_cases hc : current.status = Status.completed <;> simp [hc]
  · unfold endTimerFire
    rw [hfetch]
    by_cases hc : current.status = Status.completed <;> simp [hc]
  · intro s
    unfold endTimerFire
    rfl

/-- Witness for C8: the store holds task "p" marked completed at fire
time, so the end timer of the (pending) armed snapshot emits "task
ended". -/
theorem endTimerFire_rereads_status_witness :
    fetchSample (stagedTask "p" 100).id =
      some { stagedTask "p" 100 with status := Status.completed } ∧
    endTimerFire fetchSample (stagedTask "p" 100) =
      Notification.taskEnded (stagedTask "p" 100).title :=
  ⟨by decide,
   (endTimerFire_rereads_status fetchSample (stagedTask "p" 100)
     { stagedTask "p" 100 with status := Status.completed } (by decide)).2.1.mpr rfl⟩

/-- The task placed by `allocateTime` carries the supplied details' id. -/
theorem allocateTime_id (d : Int) (details : Task) :
    ∀ (slots : List FreeSlot) (placed : Task) (slots' : List FreeSlot),
      allocateTime d details slots = some (placed, slots') → placed.id = details.id := by
  intro slots
  induction slots with
  | nil =>
    intro p s h
    simp [allocateTime] at h
  | cons slot rest ih =>
    intro p s h
    simp only [allocateTime] at h
    split at h
    · split at h <;>
        (simp only [Option.some.injEq, Prod.mk.injEq] at h
         obtain ⟨hp, -⟩ := h
         subst hp
         rfl)
    · split at h
      · simp at h
      · next placed' rest' hrec =>
        simp only [Option.some.injEq, Prod.mk.injEq] at h
        obtain ⟨hp, -⟩ := h
        subst hp
        exact ih placed' rest' hrec

/-- With no free slots left, every remaining allocation is a silent
no-op. -/
theorem foldl_allocStep_nil (l : List Task) (tasks : List Task) :
    l.foldl (fun st dt => allocStep st dt.endTime dt) (tasks, ([] : List FreeSlot)) = (tasks, []) := by
  induction l with
  | nil => rfl
  | cons a l ih => simpa [allocStep, allocateTime] using ih

/-- Provenance through the user-task loop: every scheduled task either was
already scheduled or carries the id of one of the processed user tasks. -/
theorem foldl_allocStep_ids :
    ∀ (l : List Task) (st : List Task × List FreeSlot) (t : Task),
      t ∈ (l.foldl (fun st dt => allocStep st dt.endTime dt) st).1 →
      t ∈ st.1 ∨ ∃ dt ∈ l, t.id = dt.id := by
  intro l
  induction l with
  | nil =>
    intro st t ht
    exact Or.inl ht
  | cons a l ih =>
    intro st t ht
    rw [List.foldl_cons] at ht
    rcases ih _ t ht with h | h
    · unfold allocStep at h
      cases heq : allocateTime a.endTime a st.2 with
      | none =>
        rw [heq] at h
        exact Or.inl h
      | some pr =>
        obtain ⟨placed, slots'⟩ := pr
        rw [heq] at h
        rcases List.mem_append.mp h with h | h
        · exact Or.inl h
        · rcases List.mem_singleton.mp h with rfl
          exact Or.inr ⟨a, List.mem_cons_self _ _, allocateTime_id a.endTime a st.2 _ _ heq⟩
    · obtain ⟨dt, hdt, hid⟩ := h
      exact Or.inr ⟨dt, List.mem_cons_of_mem _ hdt, hid⟩

/-- With the sleep commitment non-positive (hence skipped), the fixed
phase can schedule at most the work commitment. -/
theorem fixedPhase_ids (sleepDuration workDuration : Int) (sleepId workId : String)
    (categories : List Category) (nowMs : Int) (today : Int)
    (hs : sleepDuration ≤ 0) :
    ∀ u ∈ ((fixedTasks sleepDuration workDuration sleepId workId).foldl
        (fun st ft =>
          if ft.durationHours ≤ 0 then st
          else allocStep st (ft.durationHours * 60 * 60 * 1000)
            (fixedTaskDetails categories nowMs ft))
        (([] : List Task), [{ start := today, «end» := today + 24 * 60 * 60 * 1000 }])).1,
      u.id = workId := by
  intro u hu
  simp only [fixedTasks, List.foldl_cons, List.foldl_nil] at hu
  rw [if_pos hs] at hu
  by_cases hw : workDuration ≤ 0
  · rw [if_pos hw] at hu
    simp at hu
  · rw [if_neg hw] at hu
    unfold allocStep at hu
    cases heq : allocateTime (workDuration * 60 * 60 * 1000)
        (fixedTaskDetails categories nowMs
          { id := workId, title := "Work/School Time", durationHours := workDuration,
            category := "work", priority := Priority.high })
        [{ start := today, «end» := today + 24 * 60 * 60 * 1000 }] with
    | none =>
      rw [heq] at hu
      simp at hu
    | some pr =>
      obtain ⟨placed, slots'⟩ := pr
      rw [heq] at hu
      rcases List.mem_append.mp hu with h | h
      · simp at h
      · rcases List.mem_singleton.mp h with rfl
        exact allocateTime_id _ _ _ _ _ heq

/-- `allocateTime` on a single slot that the duration exactly fills:
the task takes the whole slot and the slot list becomes empty. -/
theorem allocateTime_exact (d : Int) (details : Task) (s : Int) :
    allocateTime d details [{ start := s, «end» := s + d }] =
      some ({ details with startTime := s, endTime := s + d }, []) := by
  simp [allocateTime]

/-- Claim C9: with the sleep commitment non-positive it is skipped and
absent from the output while allocation proceeds; and with work = 24 h the
whole day is consumed, so the output is exactly the placed work commitment
and every additional user duration task is silently dropped (no error
aborts the allocation). -/
theorem scheduleDurationTasks_drops_infeasible
    (today sleepDuration workDuration : Int) (tempTasks : List Task)
    (categories : List Category) (sleepId workId : String) (nowMs : Int)
    (hs : sleepDuration ≤ 0) :
    ((sleepId ≠ workId ∧ ∀ dt ∈ tempTasks, dt.id ≠ sleepId) →
      ∀ t ∈ scheduleDurationTasks today sleepDuration workDuration tempTasks categories sleepId workId nowMs,
        t.id ≠ sleepId) ∧
    (workDuration = 24 →
      scheduleDurationTasks today sleepDuration workDuration tempTasks categories sleepId workId nowMs =
        [{ fixedTaskDetails categories nowMs
            { id := workId, title := "Work/School Time", durationHours := workDuration,
              category := "work", priority := Priority.high } with
           startTime := today, endTime := today + 24 * 60 * 60 * 1000 }]) := by
  constructor
  · rintro ⟨hsw, hids⟩ t ht
    obtain ⟨u, hu, i, rfl⟩ :=
      mem_scheduleDurationTasks today sleepDuration workDuration tempTasks categories sleepId workId nowMs ht
    show u.id ≠ sleepId
    rcases foldl_allocStep_ids _ _ u hu with h | h
    · rw [fixedPhase_ids sleepDuration workDuration sleepId workId categories nowMs today hs u h]
      exact hsw.symm
    · obtain ⟨dt, hdt, hid⟩ := h
      rw [hid]
      exact hids dt ((List.mem_insertionSort _).mp hdt)
  · intro hw
    subst hw
    rw [scheduleDurationTasks_eq]
    have hfix : (fixedTasks sleepDuration 24 sleepId workId).foldl
        (fun st ft =>
          if ft.durationHours ≤ 0 then st
          else allocStep st (ft.durationHours * 60 * 60 * 1000)
            (fixedTaskDetails categories nowMs ft))
        (([] : List Task), [{ start := today, «end» := today + 24 * 60 * 60 * 1000 }]) =
        ([{ fixedTaskDetails categories nowMs
            { id := workId, title := "Work/School Time", durationHours := 24,
              category := "work", priority := Priority.high } with
           startTime := today, endTime := today + 24 * 60 * 60 * 1000 }], []) := by
      simp only [fixedTasks, List.foldl_cons, List.foldl_nil]
      rw [if_pos hs, if_neg (by norm_num)]
      unfold allocStep
      rw [allocateTime_exact]
      rfl
    rw [hfix, foldl_allocStep_nil]
    simp [List.insertionSort, List.orderedInsert, List.enum, List.enumFrom, fixedTaskDetails]

/-- Witness for C9 at Scenario B: sleep 0 (skipped), work 24 h, one
90-minute study task; the output is exactly the work task. -/
theorem scheduleDurationTasks_drops_infeasible_witness :
    (0 : Int) ≤ 0 ∧
    scheduleDurationTasks 0 0 24 [stagedTask "study" (90 * 60 * 1000)]
        defaultCategories "sleep-id" "work-id" 0 =
      [{ fixedTaskDetails defaultCategories 0
          { id := "work-id", title := "Work/School Time", durationHours := 24,
            category := "work", priority := Priority.high } with
         startTime := 0, endTime := 0 + 24 * 60 * 60 * 1000 }] :=
  ⟨le_refl 0,
   (scheduleDurationTasks_drops_infeasible 0 0 24 [stagedTask "study" (90 * 60 * 1000)]
     defaultCategories "sleep-id" "work-id" 0 (le_refl 0)).2 rfl⟩

end Zenith
